import Mathlib

/-!
Verification development for the faceID repository: a shallow embedding of the
enrollment/recognition/matching pipeline (`src/App.tsx`) and of the template
store HTTP handlers (`netlify/functions/api.js`, `server.js`).

Conventions of the embedding:
* An embedding vector (JS `Float32Array` / `number[]`) is a `List ℚ`.
* Euclidean distance is represented by its square (`sqDist`), which is a
  rational.  The square function is strictly monotone on nonnegative reals,
  so every comparison the code performs on Euclidean distances (`min`, `<`,
  `>`, `= 0`) is performed here on squared distances against the squared
  threshold; in particular `dist > t ↔ sqDist > t*t` for `t ≥ 0`, and
  `dist = 0 ↔ sqDist = 0`.
* Wall-clock times (`Date.now()`) are naturals counting milliseconds.
* Fallible HTTP fetches are `Option` values (`none` = network failure).
-/

set_option maxRecDepth 10000

namespace FaceID

/-- An embedding: a fixed-length numeric vector (one face descriptor). -/
abbrev Emb := List ℚ

/-- A stored descriptor (`SavedUser.descriptor : number[] | number[][]` in
`App.tsx`, `descriptor JSONB` in the store): either a legacy flat array of
floats (one sample) or an array of sample arrays. -/
inductive StoredDesc where
  | flat (d : Emb)
  | multi (ds : List Emb)
deriving DecidableEq

/-- A record returned by `GET /users`: name plus stored descriptor. -/
structure SavedUser where
  name : String
  descriptor : StoredDesc
deriving DecidableEq

/-- Descriptor preparation in `App.tsx` (lines 553-565 and 716-721):
`Array.isArray(user.descriptor[0])` decides between the array-of-arrays form
and the legacy flat form.  For `multi []` the first element is `undefined`,
which is not an array, so the code falls into the flat branch and wraps the
empty array as a single (empty) sample. -/
def toSamples : StoredDesc → List Emb
  | .flat d => [d]
  | .multi [] => [[]]
  | .multi (d :: ds) => d :: ds

/-- One identity's labeled template set (`faceapi.LabeledFaceDescriptors`). -/
structure LabeledTemplate where
  label : String
  samples : List Emb
deriving DecidableEq

/-- Build the labeled template collection handed to the matcher
(`App.tsx` lines 561-566 / 716-721). -/
def userTemplates (users : List SavedUser) : List LabeledTemplate :=
  users.map (fun u => ⟨u.name, toSamples u.descriptor⟩)

/-- Squared Euclidean distance between two embeddings. -/
def sqDist (a b : Emb) : ℚ :=
  (List.zipWith (fun x y => (x - y) * (x - y)) a b).sum

/-- The matcher's result: an identity label (or the "no match" sentinel
`unknown`) and the squared distance to the nearest sample (`⊤` = +infinity
when there were no templates at all). -/
structure MatchResult where
  label : String
  distSq : WithTop ℚ
deriving DecidableEq

/-- The "no match" sentinel label used by `faceapi.FaceMatcher`. -/
def noMatchLabel : String := "unknown"

/-- All (label, sample) pairs across every identity's template, in the stable
iteration order of the input collection. -/
def allSamples : List LabeledTemplate → List (String × Emb)
  | [] => []
  | t :: ts => t.samples.map (fun s => (t.label, s)) ++ allSamples ts

/-- The (label, squared distance to the probe) pair for every sample across
every identity, in iteration order. -/
def labeledDists (probe : Emb) (ts : List LabeledTemplate) : List (String × ℚ) :=
  (allSamples ts).map (fun p => (p.1, sqDist probe p.2))

/-- Track the minimum distance and its owning label over the listed samples;
the first pair encountered at the minimum wins ties. -/
def bestOf : List (String × ℚ) → Option (String × ℚ)
  | [] => none
  | p :: rest =>
    match bestOf rest with
    | none => some p
    | some q => if q.2 < p.2 then some q else some p

/-- Modelled from the spec: the Matcher operation
`findBestMatch(probe, labeledTemplates, threshold)` of §4.1 — the code calls
`faceapi.FaceMatcher.findBestMatch`, a third-party library function whose
source is not part of this repository.  For every sample across every
identity's template, compute the distance to the probe and track the minimum
and its owning label; if the global minimum is strictly greater than the
threshold, or the collection is empty, return the "no match" label with that
minimum distance (+infinity when no templates exist), otherwise the winning
label with its distance.  Distances are squared (see the file header), so the
threshold comparison is against `t * t`. -/
def findBestMatch (probe : Emb) (ts : List LabeledTemplate) (t : ℚ) : MatchResult :=
  match bestOf (labeledDists probe ts) with
  | none => ⟨noMatchLabel, ⊤⟩
  | some (l, d) => if t * t < d then ⟨noMatchLabel, (d : WithTop ℚ)⟩ else ⟨l, (d : WithTop ℚ)⟩

/-- `const FACE_MATCH_THRESHOLD = 0.45` (`App.tsx` line 18). -/
def FACE_MATCH_THRESHOLD : ℚ := 9 / 20

/-- Confidence projection (`App.tsx` line 726):
`Math.max(0, Math.min(100, (1 - distance / FACE_MATCH_THRESHOLD) * 100))`,
as a function of the match distance. -/
def confidence (d : ℚ) : ℚ :=
  max 0 (min 100 ((1 - d / FACE_MATCH_THRESHOLD) * 100))

/-- Modelled from the spec: the confidence projection written in §4.1,
`clamp(0, 100, (1 - distance/threshold) * 100)` at threshold 0.45, to be
compared with the code's `confidence`. -/
def clampConfidence (d : ℚ) : ℚ :=
  max 0 (min 100 ((1 - d / (9 / 20)) * 100))

/-! ## Template store: `netlify/functions/api.js` -/

/-- `const MAX_DESCRIPTORS = 25` (`api.js` line 164). -/
def MAX_DESCRIPTORS : ℕ := 25

/-- One element of a stored descriptor's JSONB array as the `PUT` handler
sees it: a number (one float of a legacy flat descriptor) or an array (one
sample embedding). -/
inductive JElem where
  | num (q : ℚ)
  | arr (d : Emb)
deriving DecidableEq

/-- The JSONB array the store holds for a descriptor: a legacy flat
descriptor is an array of numbers; a template is an array of sample
arrays. -/
def jsonElems : StoredDesc → List JElem
  | .flat d => d.map .num
  | .multi ds => ds.map .arr

/-- `PUT /users/:name` normalization (`api.js` lines 179-183):
`let descriptors = row.descriptor; if (!Array.isArray(descriptors))
descriptors = [descriptors]`.  Both stored forms are JSON arrays — a legacy
flat descriptor is an array of floats — so the wrap fires for neither and
the handler proceeds with the stored array's elements unchanged.  (It could
only fire for a non-array JSONB value, which the init-time migration at
`api.js` lines 28-42 has already wrapped into an array.) -/
def normalizePut (stored : StoredDesc) : List JElem :=
  jsonElems stored

/-- `PUT /users/:name` cap (`api.js` lines 187-189): after the push, if the
stored array holds more than `MAX_DESCRIPTORS` elements, keep the last
`MAX_DESCRIPTORS` (`descriptors.slice(-MAX_DESCRIPTORS)`). -/
def capDescriptors (es : List JElem) : List JElem :=
  if MAX_DESCRIPTORS < es.length then es.drop (es.length - MAX_DESCRIPTORS) else es

/-- One `PUT /users/:name` append (`api.js` lines 185-189):
`descriptors.push(descriptor)` — the request's new sample, itself an
array — then cap. -/
def putAppend (stored : List JElem) (d : Emb) : List JElem :=
  capDescriptors (stored ++ [.arr d])

/-- One full `PUT /users/:name` update of a stored descriptor. -/
def putUpdate (stored : StoredDesc) (d : Emb) : List JElem :=
  putAppend (normalizePut stored) d

/-- A sequence of `PUT /users/:name` appends applied in order. -/
def appendAll (s0 : List JElem) (ds : List Emb) : List JElem :=
  ds.foldl putAppend s0

/-- A sequence of `PUT /users/:name` appends starting from the raw stored
descriptor. -/
def appendAllFrom (s0 : StoredDesc) (ds : List Emb) : List JElem :=
  appendAll (normalizePut s0) ds

/-- The last `n` elements of a list. -/
def lastN (n : ℕ) (l : List α) : List α :=
  l.drop (l.length - n)

/-- Result of `DELETE /users`: HTTP status and whether the table was cleared. -/
structure DeleteResult where
  status : ℕ
  cleared : Bool
deriving DecidableEq

/-- `DELETE /users` (`api.js` lines 203-223): reads
`CLEAR_PASSWORD = process.env.CLEAR_USERS_PASSWORD`; if
`!CLEAR_PASSWORD || password !== CLEAR_PASSWORD` respond 401 without
clearing, otherwise delete all rows and respond 200.  `configured` is the
environment variable (`none` = unset; the empty string is falsy in JS and
hits the same `!CLEAR_PASSWORD` guard). -/
def deleteUsersHandler (configured : Option String) (password : String) : DeleteResult :=
  match configured with
  | none => ⟨401, false⟩
  | some p => if p = "" then ⟨401, false⟩ else if password = p then ⟨200, true⟩ else ⟨401, false⟩

/-- A row of the `face_users` table. -/
structure Row where
  id : ℕ
  name : String
  descriptor : StoredDesc
  created_at : ℕ
deriving DecidableEq

/-- `GET /users` (`api.js` lines 73-85, `server.js` lines 46-58):
`SELECT name, descriptor FROM face_users ORDER BY created_at ASC`.  The sort
the database performs is modelled by `mergeSort` on `created_at`. -/
def sortedRows (rows : List Row) : List Row :=
  rows.mergeSort (fun a b => a.created_at ≤ b.created_at)

/-- The list of records `GET /users` returns, in response order. -/
def getUsers (rows : List Row) : List SavedUser :=
  (sortedRows rows).map (fun r => ⟨r.name, r.descriptor⟩)

/-! ## Enrollment session: `handleNewUserRegistration` (`App.tsx` lines 526-705) -/

/-- The mutable refs `handleNewUserRegistration` reads and writes:
`learningStartTimeRef` (0 = Learning not entered yet) and
`collectedDescriptorsRef`. -/
structure EnrollState where
  learningStart : ℕ
  collected : List Emb
deriving DecidableEq

/-- What one enrollment frame does, besides updating the refs. -/
inductive EnrollAction where
  | nameError
  | rejected (conflict : String)
  | collecting
  | commit (name : String) (descs : List Emb)
deriving DecidableEq

/-- `const MIN_LEARNING_SECONDS = 5` (`App.tsx` line 600). -/
def MIN_LEARNING_SECONDS : ℕ := 5

/-- The Learning part of one enrollment frame (`App.tsx` lines 599-626):
while fewer than `MIN_LEARNING_SECONDS` whole seconds have elapsed since
`learningStart`, collect the frame's embedding on every 5th frame; once the
minimum duration is reached, append the current frame's embedding one final
time and commit the collected buffer (the `collected.length > 0` guard is the
code's own defensive check). -/
def learnStep (st : EnrollState) (frameCount t : ℕ) (probe : Emb) (name : String) :
    EnrollState × EnrollAction :=
  let elapsedSeconds := (t - st.learningStart) / 1000
  if elapsedSeconds < MIN_LEARNING_SECONDS then
    if frameCount % 5 = 0 then
      (⟨st.learningStart, st.collected ++ [probe]⟩, .collecting)
    else
      (st, .collecting)
  else
    let collected := st.collected ++ [probe]
    let descs := if collected.length > 0 then collected else [probe]
    (⟨0, []⟩, .commit name descs)

/-- One frame of `handleNewUserRegistration` (`App.tsx` lines 526-626), up to
the commit request: validate the name; on the first usable frame
(`learningStart = 0`) record the learning start, clear the buffer and run the
duplicate check against a freshly fetched user list (`fetched`; `none` models
a failed fetch, which is logged and registration proceeds anyway); reject
when the matcher reports an existing identity; otherwise fall through to the
Learning logic. -/
def enrollFrame (st : EnrollState) (frameCount t : ℕ) (probe : Emb)
    (fetched : Option (List SavedUser)) (name : String) : EnrollState × EnrollAction :=
  if name = "" then (st, .nameError)
  else if st.learningStart = 0 then
    let st1 : EnrollState := ⟨t, []⟩
    match fetched with
    | some users =>
      if 0 < users.length then
        let m := findBestMatch probe (userTemplates users) FACE_MATCH_THRESHOLD
        if m.label ≠ noMatchLabel then (⟨0, []⟩, .rejected m.label)
        else learnStep st1 frameCount t probe name
      else learnStep st1 frameCount t probe name
    | none => learnStep st1 frameCount t probe name
  else learnStep st frameCount t probe name

/-! ## Recognition session: `handleExistingUserFlow` (`App.tsx` lines 853-890)
and `handleExistingUserRecognition` (`App.tsx` lines 707-774) -/

/-- Outcome of starting the recognition flow. -/
inductive FlowStart where
  | noUsersMsg
  | startScanning
deriving DecidableEq

/-- `handleExistingUserFlow` precondition (`App.tsx` lines 854-858): with zero
saved users, report "No registered users found. Please register as a new user
first." and return before the camera or the detection loop is started. -/
def handleExistingUserFlow (savedUsers : List SavedUser) : FlowStart :=
  if savedUsers.length = 0 then .noUsersMsg else .startScanning

/-- What one recognition frame does. -/
inductive RecogAction where
  | noUsers
  | matched (label : String) (appended : Emb)
  | unrecognized
deriving DecidableEq

/-- One frame of `handleExistingUserRecognition` (`App.tsx` lines 707-774):
with zero saved users report "No registered users found" without running the
matcher; otherwise run the matcher and, on a match, report the label and
append the probe to the matched identity's template via `PUT`. -/
def recogFrame (savedUsers : List SavedUser) (probe : Emb) : RecogAction :=
  if savedUsers.length = 0 then .noUsers
  else
    let m := findBestMatch probe (userTemplates savedUsers) FACE_MATCH_THRESHOLD
    if m.label ≠ noMatchLabel then .matched m.label probe
    else .unrecognized

/-! ## Lemmas about the matcher -/

theorem sqDist_self (a : Emb) : sqDist a a = 0 := by
  induction a with
  | nil => rfl
  | cons x xs ih => simp [sqDist, List.zipWith, sub_self, ih]

theorem bestOf_cons_none {rest : List (String × ℚ)} {x : String × ℚ}
    (h : bestOf rest = none) : bestOf (x :: rest) = some x := by
  rw [bestOf, h]

theorem bestOf_cons_some {rest : List (String × ℚ)} {x q : String × ℚ}
    (h : bestOf rest = some q) :
    bestOf (x :: rest) = if q.2 < x.2 then some q else some x := by
  rw [bestOf, h]

theorem eq_nil_of_bestOf_eq_none {l : List (String × ℚ)} (h : bestOf l = none) : l = [] := by
  cases l with
  | nil => rfl
  | cons x rest =>
    cases hr : bestOf rest with
    | none => rw [bestOf_cons_none hr] at h; simp at h
    | some q => rw [bestOf_cons_some hr] at h; split at h <;> simp at h

theorem bestOf_mem : ∀ {l : List (String × ℚ)} {p : String × ℚ}, bestOf l = some p → p ∈ l := by
  intro l
  induction l with
  | nil => intro p h; simp [bestOf] at h
  | cons x rest ih =>
    intro p h
    cases hr : bestOf rest with
    | none =>
      rw [bestOf_cons_none hr] at h
      injection h with h
      exact h ▸ List.mem_cons_self _ _
    | some q =>
      rw [bestOf_cons_some hr] at h
      by_cases hq : q.2 < x.2
      · rw [if_pos hq] at h
        injection h with h
        exact List.mem_cons_of_mem _ (h ▸ ih hr)
      · rw [if_neg hq] at h
        injection h with h
        exact h ▸ List.mem_cons_self _ _

theorem bestOf_le : ∀ {l : List (String × ℚ)} {p : String × ℚ}, bestOf l = some p →
    ∀ q ∈ l, p.2 ≤ q.2 := by
  intro l
  induction l with
  | nil => intro p h; simp [bestOf] at h
  | cons x rest ih =>
    intro p h q hq
    cases hr : bestOf rest with
    | none =>
      rw [bestOf_cons_none hr] at h
      injection h with h
      subst h
      rcases List.mem_cons.mp hq with rfl | hmem
      · exact le_refl _
      · rw [eq_nil_of_bestOf_eq_none hr] at hmem; simp at hmem
    | some b =>
      rw [bestOf_cons_some hr] at h
      by_cases hb : b.2 < x.2
      · rw [if_pos hb] at h
        injection h with h
        subst h
        rcases List.mem_cons.mp hq with rfl | hmem
        · exact le_of_lt hb
        · exact ih hr q hmem
      · rw [if_neg hb] at h
        injection h with h
        subst h
        rcases List.mem_cons.mp hq with rfl | hmem
        · exact le_refl _
        · exact le_trans (not_lt.mp hb) (ih hr q hmem)

theorem bestOf_split : ∀ {l : List (String × ℚ)} {p : String × ℚ}, bestOf l = some p →
    ∃ l1 l2, l = l1 ++ p :: l2 ∧ ∀ q ∈ l1, p.2 < q.2 := by
  intro l
  induction l with
  | nil => intro p h; simp [bestOf] at h
  | cons x rest ih =>
    intro p h
    cases hr : bestOf rest with
    | none =>
      rw [bestOf_cons_none hr] at h
      injection h with h
      subst h
      exact ⟨[], rest, rfl, by simp⟩
    | some b =>
      rw [bestOf_cons_some hr] at h
      by_cases hb : b.2 < x.2
      · rw [if_pos hb] at h
        injection h with h
        subst h
        obtain ⟨l1, l2, hsplit, hgt⟩ := ih hr
        refine ⟨x :: l1, l2, by rw [hsplit]; rfl, ?_⟩
        intro q hq
        rcases List.mem_cons.mp hq with rfl | hmem
        · exact hb
        · exact hgt q hmem
      · rw [if_neg hb] at h
        injection h with h
        subst h
        exact ⟨[], rest, rfl, by simp⟩

/-! ## C1: findBestMatch -/

/-- C1.  For every probe, template collection and threshold, `findBestMatch`
returns the "no match" label whenever the minimum distance across all samples
is strictly greater than the threshold, or the collection is empty (distance
+infinity in the empty case); otherwise it returns the label of the identity
owning the minimum-distance sample together with that minimum distance; and
`findBestMatch(P, [A ↦ [P]], t)` returns label `A` with distance 0 for every
`t ≥ 0`.  Distances appear as their squares (threshold as `t * t`). -/
theorem findBestMatch_spec (probe : Emb) (ts : List LabeledTemplate) (t : ℚ)
    (ht : 0 ≤ t) :
    (ts = [] → findBestMatch probe ts t = ⟨noMatchLabel, ⊤⟩)
    ∧ (∀ l d, bestOf (labeledDists probe ts) = some (l, d) →
        (∀ q ∈ labeledDists probe ts, d ≤ q.2)
        ∧ (t * t < d → findBestMatch probe ts t = ⟨noMatchLabel, (d : WithTop ℚ)⟩)
        ∧ (d ≤ t * t → findBestMatch probe ts t = ⟨l, (d : WithTop ℚ)⟩
            ∧ (l, d) ∈ labeledDists probe ts))
    ∧ findBestMatch probe [⟨"A", [probe]⟩] t = ⟨"A", ((0 : ℚ) : WithTop ℚ)⟩ := by
  refine ⟨?_, ?_, ?_⟩
  · rintro rfl
    rfl
  · intro l d h
    refine ⟨fun q hq => bestOf_le h q hq, ?_, ?_⟩
    · intro hgt
      simp [findBestMatch, h, hgt]
    · intro hle
      refine ⟨?_, bestOf_mem h⟩
      simp [findBestMatch, h, not_lt.mpr hle]
  · have hd : labeledDists probe [⟨"A", [probe]⟩] = [("A", 0)] := by
      simp [labeledDists, allSamples, sqDist_self]
    have hb : bestOf (labeledDists probe [⟨"A", [probe]⟩]) = some ("A", 0) := by
      rw [hd]; rfl
    simp [findBestMatch, hb, not_lt.mpr (mul_self_nonneg t)]

/-- C1 witness: the theorem applied to a concrete probe, a concrete two-user
template collection and the concrete threshold 0.45. -/
theorem findBestMatch_spec_witness :
    ((([⟨"Alice", [[0], [1]]⟩, ⟨"Bob", [[3]]⟩] : List LabeledTemplate) = []) →
      findBestMatch [1] [⟨"Alice", [[0], [1]]⟩, ⟨"Bob", [[3]]⟩] (9 / 20) = ⟨noMatchLabel, ⊤⟩)
    ∧ (∀ l d, bestOf (labeledDists [1] [⟨"Alice", [[0], [1]]⟩, ⟨"Bob", [[3]]⟩]) = some (l, d) →
        (∀ q ∈ labeledDists [1] [⟨"Alice", [[0], [1]]⟩, ⟨"Bob", [[3]]⟩], d ≤ q.2)
        ∧ (9 / 20 * (9 / 20) < d →
            findBestMatch [1] [⟨"Alice", [[0], [1]]⟩, ⟨"Bob", [[3]]⟩] (9 / 20)
              = ⟨noMatchLabel, (d : WithTop ℚ)⟩)
        ∧ (d ≤ 9 / 20 * (9 / 20) →
            findBestMatch [1] [⟨"Alice", [[0], [1]]⟩, ⟨"Bob", [[3]]⟩] (9 / 20)
              = ⟨l, (d : WithTop ℚ)⟩
            ∧ (l, d) ∈ labeledDists [1] [⟨"Alice", [[0], [1]]⟩, ⟨"Bob", [[3]]⟩]))
    ∧ findBestMatch [1] [⟨"A", [[1]]⟩] (9 / 20) = ⟨"A", ((0 : ℚ) : WithTop ℚ)⟩ :=
  findBestMatch_spec [1] [⟨"Alice", [[0], [1]]⟩, ⟨"Bob", [[3]]⟩] (9 / 20)
    (of_decide_eq_true (by with_unfolding_all rfl))

/-! ## C9: confidence projection -/

/-- C9.  The confidence computed from the match distance equals
`clamp(0, 100, (1 - distance/threshold) * 100)` at threshold 0.45; it is 0
for every distance greater than or equal to the threshold, and 100 at
distance 0. -/
theorem confidence_spec (d : ℚ) (hd : FACE_MATCH_THRESHOLD ≤ d) :
    (∀ e : ℚ, confidence e = clampConfidence e)
    ∧ confidence d = 0
    ∧ confidence 0 = 100 := by
  refine ⟨fun e => rfl, ?_, ?_⟩
  · have hθ : (0 : ℚ) < FACE_MATCH_THRESHOLD := by norm_num [FACE_MATCH_THRESHOLD]
    have h1 : (1 : ℚ) ≤ d / FACE_MATCH_THRESHOLD := (one_le_div hθ).mpr hd
    have h2 : (1 - d / FACE_MATCH_THRESHOLD) * 100 ≤ 0 :=
      mul_nonpos_of_nonpos_of_nonneg (by linarith) (by norm_num)
    rw [confidence, min_eq_right (le_trans h2 (by norm_num)), max_eq_left h2]
  · norm_num [confidence, FACE_MATCH_THRESHOLD]

/-- C9 witness: the theorem applied at the concrete distance 0.6 ≥ 0.45. -/
theorem confidence_spec_witness :
    (∀ e : ℚ, confidence e = clampConfidence e)
    ∧ confidence (3 / 5) = 0
    ∧ confidence 0 = 100 :=
  confidence_spec (3 / 5) (by norm_num [FACE_MATCH_THRESHOLD])

/-! ## C6: recognition against an empty store -/

/-- C6.  Starting the recognition flow with zero enrolled identities reports
the "no enrolled users" condition instead of starting the scan, and a
recognition frame with zero saved users yields the no-users outcome — the
matcher is never consulted and no match is ever reported. -/
theorem recognition_empty_store (probe : Emb) :
    handleExistingUserFlow [] = .noUsersMsg
    ∧ recogFrame [] probe = .noUsers := by
  exact ⟨rfl, rfl⟩

/-! ## C7: legacy flat descriptors -/

/-- C7, evaluated at the failing input.  The matcher input preparation does
treat a legacy flat descriptor as a one-sample template (`App.tsx` line 717
checks `Array.isArray(user.descriptor[0])`, the first element), so its half
of the claim holds — the first two conjuncts.  The store's append logic does
not: a flat float array is itself an array, so `api.js` line 181's
`!Array.isArray(descriptors)` never wraps it, and the `PUT` pushes the new
sample onto the float list — for stored flat `[1, 2]` and new sample `[9]`
the code stores the mixed array `[1, 2, [9]]`, not the `[[1, 2], [9]]` that
the same record in one-sample template form produces. -/
theorem legacy_flat_append_bug :
    toSamples (.flat [1, 2]) = toSamples (.multi [[1, 2]])
    ∧ findBestMatch [1, 2] (userTemplates [⟨"A", .flat [1, 2]⟩]) FACE_MATCH_THRESHOLD
        = findBestMatch [1, 2] (userTemplates [⟨"A", .multi [[1, 2]]⟩]) FACE_MATCH_THRESHOLD
    ∧ putUpdate (.flat [1, 2]) [9] = [.num 1, .num 2, .arr [9]]
    ∧ putUpdate (.multi [[1, 2]]) [9] = [.arr [1, 2], .arr [9]]
    ∧ putUpdate (.flat [1, 2]) [9] ≠ putUpdate (.multi [[1, 2]]) [9] :=
  of_decide_eq_true (by with_unfolding_all rfl)

/-! ## C8: DELETE /users -/

/-- C8 counterexample.  When the server has no configured password, the bulk
clear responds 401 (and clears nothing), not 500 as the claim states. -/
theorem deleteUsers_no_configured_password_cex :
    deleteUsersHandler none "secret" = ⟨401, false⟩
    ∧ (deleteUsersHandler none "secret").status ≠ 500 := by
  exact ⟨rfl, by decide⟩

/-- C8, amended.  `DELETE /users` returns 200 and clears all identities when
the supplied password matches a configured non-empty password; it returns 401
without clearing both when the supplied password does not match and when the
server has no configured password (unset or empty environment variable) —
the no-configured-password case is not distinguished as a 500. -/
theorem deleteUsers_spec (p s : String) (hp : p ≠ "") :
    (s = p → deleteUsersHandler (some p) s = ⟨200, true⟩)
    ∧ (s ≠ p → deleteUsersHandler (some p) s = ⟨401, false⟩)
    ∧ deleteUsersHandler none s = ⟨401, false⟩
    ∧ deleteUsersHandler (some "") s = ⟨401, false⟩ := by
  refine ⟨?_, ?_, rfl, rfl⟩
  · rintro rfl
    rw [deleteUsersHandler]
    rw [if_neg hp, if_pos rfl]
  · intro hs
    rw [deleteUsersHandler]
    rw [if_neg hp, if_neg hs]

/-- C8 witness: the amended theorem applied at the concrete configured
password "0852Tsie" (the hardcoded password of `server.js`). -/
theorem deleteUsers_spec_witness :
    (("0852Tsie" : String) = "0852Tsie" →
      deleteUsersHandler (some "0852Tsie") "0852Tsie" = ⟨200, true⟩)
    ∧ (("0852Tsie" : String) ≠ "0852Tsie" →
      deleteUsersHandler (some "0852Tsie") "0852Tsie" = ⟨401, false⟩)
    ∧ deleteUsersHandler none "0852Tsie" = ⟨401, false⟩
    ∧ deleteUsersHandler (some "") "0852Tsie" = ⟨401, false⟩ :=
  deleteUsers_spec "0852Tsie" "0852Tsie" (by decide)

/-! ## C2: the 25-sample cap with FIFO eviction -/

theorem putAppend_eq_lastN (st : List JElem) (d : Emb) :
    putAppend st d = lastN MAX_DESCRIPTORS (st ++ [.arr d]) := by
  rw [putAppend, capDescriptors, lastN]
  split
  · rfl
  · rename_i hle
    rw [Nat.sub_eq_zero_of_le (not_lt.mp hle), List.drop_zero]

theorem drop_append_len (T Z : List α) (m : ℕ) :
    (T ++ Z).drop (T.length + m) = Z.drop m := by
  rw [← List.drop_drop m T.length, List.drop_left]

theorem lastN_append_left (n : ℕ) (T A ys : List α) :
    lastN n ((T ++ A) ++ ys) = lastN n (A ++ ys) ∨ (A ++ ys).length < n := by
  by_cases hA : n ≤ (A ++ ys).length
  · left
    rw [lastN, lastN, List.append_assoc]
    have harith : (T ++ (A ++ ys)).length - n = T.length + ((A ++ ys).length - n) := by
      simp only [List.length_append] at hA ⊢
      omega
    rw [harith, drop_append_len]
  · right
    omega

theorem lastN_append_lastN (n : ℕ) (xs ys : List α) :
    lastN n (lastN n xs ++ ys) = lastN n (xs ++ ys) := by
  by_cases hn : xs.length ≤ n
  · have hxs : lastN n xs = xs := by
      rw [lastN, Nat.sub_eq_zero_of_le hn, List.drop_zero]
    rw [hxs]
  · have hsplit : xs.take (xs.length - n) ++ lastN n xs = xs := by
      rw [lastN]
      exact List.take_append_drop _ _
    have hA : n ≤ (lastN n xs ++ ys).length := by
      rw [List.length_append, lastN, List.length_drop]
      omega
    conv_rhs => rw [← hsplit]
    rcases lastN_append_left n (xs.take (xs.length - n)) (lastN n xs) ys with h | h
    · rw [h]
    · omega

theorem appendAll_eq_lastN (ds : List Emb) (hds : ds ≠ []) (s0 : List JElem) :
    appendAll s0 ds = lastN MAX_DESCRIPTORS (s0 ++ ds.map .arr) := by
  induction ds generalizing s0 with
  | nil => exact absurd rfl hds
  | cons d rest ih =>
    rw [appendAll, List.foldl_cons]
    cases rest with
    | nil =>
      rw [List.foldl_nil, putAppend_eq_lastN]
      rfl
    | cons e es =>
      rw [show List.foldl putAppend (putAppend s0 d) (e :: es)
            = appendAll (putAppend s0 d) (e :: es) from rfl,
        ih (by simp), putAppend_eq_lastN, lastN_append_lastN]
      simp

/-- C2.  Across every sequence of `PUT /users/:name` appends on one identity
(starting from any stored descriptor, flat or multi), the stored array's
length never exceeds 25 once at least one append has happened; and after
more than 25 samples have been appended in total, the stored array is
exactly the 25 most recently appended samples, in order (every older
element — pre-existing samples and legacy flat floats alike — evicted
first, identified by content). -/
theorem put_cap_fifo (s0 : StoredDesc) (ds : List Emb) (i : ℕ)
    (h1 : 1 ≤ i) (h2 : i ≤ ds.length) :
    (appendAllFrom s0 (ds.take i)).length ≤ MAX_DESCRIPTORS
    ∧ (MAX_DESCRIPTORS < ds.length →
        appendAllFrom s0 ds = (ds.drop (ds.length - MAX_DESCRIPTORS)).map .arr) := by
  constructor
  · have htk : ds.take i ≠ [] := by
      intro hnil
      have hl := congrArg List.length hnil
      simp only [List.length_take, List.length_nil] at hl
      omega
    rw [appendAllFrom, appendAll_eq_lastN _ htk, lastN, List.length_drop]
    omega
  · intro hgt
    have hne : ds ≠ [] := by
      intro hnil
      rw [hnil] at hgt
      simp at hgt
    rw [appendAllFrom, appendAll_eq_lastN _ hne, lastN]
    have harith : (normalizePut s0 ++ ds.map JElem.arr).length - MAX_DESCRIPTORS
        = (normalizePut s0).length + ((ds.map JElem.arr).length - MAX_DESCRIPTORS) := by
      rw [List.length_append, List.length_map]
      omega
    rw [harith, drop_append_len, List.length_map, ← List.map_drop]

/-- C2 witness: the theorem applied to a concrete legacy starting descriptor
and one concrete appended sample. -/
theorem put_cap_fifo_witness :
    (appendAllFrom (.flat [1]) (([[2]] : List Emb).take 1)).length ≤ MAX_DESCRIPTORS
    ∧ (MAX_DESCRIPTORS < ([[2]] : List Emb).length →
        appendAllFrom (.flat [1]) [[2]]
          = (([[2]] : List Emb).drop (([[2]] : List Emb).length - MAX_DESCRIPTORS)).map
              JElem.arr) :=
  put_cap_fifo (.flat [1]) [[2]] 1 (by decide) (by decide)

/-! ## C3, C4, C5: enrollment session -/

theorem allSamples_label {ts : List LabeledTemplate} {p : String × Emb}
    (h : p ∈ allSamples ts) : ∃ tp ∈ ts, tp.label = p.1 := by
  induction ts with
  | nil => simp [allSamples] at h
  | cons tp rest ih =>
    rw [allSamples] at h
    rcases List.mem_append.mp h with h1 | h2
    · obtain ⟨s, _, hps⟩ := List.mem_map.mp h1
      exact ⟨tp, List.mem_cons_self _ _, by rw [← hps]⟩
    · obtain ⟨tq, htq, hl⟩ := ih h2
      exact ⟨tq, List.mem_cons_of_mem _ htq, hl⟩

theorem matchLabel_mem_users {probe : Emb} {users : List SavedUser} {t : ℚ}
    (hne : (findBestMatch probe (userTemplates users) t).label ≠ noMatchLabel) :
    ∃ u ∈ users, u.name = (findBestMatch probe (userTemplates users) t).label := by
  cases hb : bestOf (labeledDists probe (userTemplates users)) with
  | none =>
    rw [findBestMatch, hb] at hne
    exact absurd rfl hne
  | some p =>
    obtain ⟨l, d⟩ := p
    by_cases hgt : t * t < d
    · simp [findBestMatch, hb, hgt] at hne
    · have hlabel : (findBestMatch probe (userTemplates users) t).label = l := by
        simp [findBestMatch, hb, hgt]
      rw [hlabel]
      have hmem := bestOf_mem hb
      rw [labeledDists] at hmem
      obtain ⟨q, hq, hfq⟩ := List.mem_map.mp hmem
      have hql : q.1 = l := congrArg Prod.fst hfq
      obtain ⟨tp, htp, htl⟩ := allSamples_label hq
      rw [userTemplates] at htp
      obtain ⟨u, hu, hut⟩ := List.mem_map.mp htp
      exact ⟨u, hu, by rw [show u.name = tp.label from by rw [← hut], htl, hql]⟩

/-- C3.  When the duplicate check on the first captured probe finds an
existing identity within the threshold (the matcher returns a label other
than "no match"), the enrollment frame ends in the rejected outcome naming
that conflicting existing identity, the session state is reset, and no store
write is issued — in particular the returned action is not a commit. -/
theorem enroll_duplicate_rejected (st : EnrollState) (fc t : ℕ) (probe : Emb)
    (users : List SavedUser) (name L : String)
    (hstart : st.learningStart = 0) (hname : name ≠ "")
    (hL : (findBestMatch probe (userTemplates users) FACE_MATCH_THRESHOLD).label = L)
    (hne : L ≠ noMatchLabel) :
    enrollFrame st fc t probe (some users) name = (⟨0, []⟩, .rejected L)
    ∧ (∃ u ∈ users, u.name = L)
    ∧ ∀ nm descs, EnrollAction.rejected L ≠ .commit nm descs := by
  have husers : 0 < users.length := by
    rcases users with _ | ⟨u, rest⟩
    · exact absurd (hL.symm.trans (by rfl)) hne
    · simp
  have hmne : (findBestMatch probe (userTemplates users) FACE_MATCH_THRESHOLD).label
      ≠ noMatchLabel := by rw [hL]; exact hne
  refine ⟨?_, ?_, fun nm descs => by simp⟩
  · rw [enrollFrame, if_neg hname, if_pos hstart]
    simp only [husers, if_pos, if_true]
    rw [if_pos hmne, hL]
  · obtain ⟨u, hu, hun⟩ := matchLabel_mem_users hmne
    exact ⟨u, hu, by rw [hun, hL]⟩

/-- C3 witness: enrolling "Bob" with a probe equal to Alice's stored
embedding is rejected naming "Alice" and writes nothing. -/
theorem enroll_duplicate_rejected_witness :
    enrollFrame ⟨0, []⟩ 0 1234 [0] (some [⟨"Alice", .multi [[0]]⟩]) "Bob"
      = (⟨0, []⟩, .rejected "Alice")
    ∧ (∃ u ∈ [(⟨"Alice", .multi [[0]]⟩ : SavedUser)], u.name = "Alice")
    ∧ ∀ nm descs, EnrollAction.rejected "Alice" ≠ .commit nm descs :=
  enroll_duplicate_rejected ⟨0, []⟩ 0 1234 [0] [⟨"Alice", .multi [[0]]⟩] "Bob" "Alice"
    rfl (by decide) (of_decide_eq_true (by with_unfolding_all rfl)) (by decide)

/-- C4.  Whenever an enrollment frame commits, the session had already
entered Learning (`learningStart ≠ 0`) at time `learningStart`, at least
5000 ms of wall-clock time have elapsed since then, and the committed
candidate template is the collected buffer with the current frame's
embedding appended one final time — hence non-empty with the current
embedding as its last sample. -/
theorem enroll_commit_timing (st : EnrollState) (fc t : ℕ) (probe : Emb)
    (fetched : Option (List SavedUser)) (name nm : String) (descs : List Emb)
    (st2 : EnrollState)
    (h : enrollFrame st fc t probe fetched name = (st2, .commit nm descs)) :
    st.learningStart ≠ 0 ∧ st.learningStart + 5000 ≤ t
    ∧ descs = st.collected ++ [probe] ∧ descs ≠ []
    ∧ descs.getLast? = some probe := by
  have hfirst : ∀ st1 : EnrollState, st1.learningStart = t →
      learnStep st1 fc t probe name ≠ (st2, .commit nm descs) := by
    intro st1 hst1 hstep
    rw [learnStep, hst1] at hstep
    simp only [Nat.sub_self, Nat.zero_div, MIN_LEARNING_SECONDS] at hstep
    rw [if_pos (by norm_num)] at hstep
    split at hstep <;> (injection hstep with h1 h2; exact EnrollAction.noConfusion h2)
  by_cases hname : name = ""
  · rw [enrollFrame, if_pos hname] at h
    simp at h
  by_cases hstart : st.learningStart = 0
  · exfalso
    rw [enrollFrame, if_neg hname, if_pos hstart] at h
    cases fetched with
    | none => exact hfirst ⟨t, []⟩ rfl h
    | some users =>
      dsimp only at h
      by_cases hu : 0 < users.length
      · rw [if_pos hu] at h
        by_cases hm : (findBestMatch probe (userTemplates users) FACE_MATCH_THRESHOLD).label
            ≠ noMatchLabel
        · rw [if_pos hm] at h
          simp at h
        · rw [if_neg hm] at h
          exact hfirst ⟨t, []⟩ rfl h
      · rw [if_neg hu] at h
        exact hfirst ⟨t, []⟩ rfl h
  · rw [enrollFrame, if_neg hname, if_neg hstart, learnStep] at h
    by_cases he : (t - st.learningStart) / 1000 < MIN_LEARNING_SECONDS
    · rw [if_pos he] at h
      split at h <;> (injection h with h1 h2; exact EnrollAction.noConfusion h2)
    · rw [if_neg he] at h
      simp only [List.length_append, List.length_cons, List.length_nil] at h
      rw [if_pos (by omega)] at h
      injection h with h1 h2
      injection h2 with hnm hdescs
      refine ⟨hstart, ?_, hdescs.symm, ?_, ?_⟩
      · simp only [MIN_LEARNING_SECONDS] at he
        omega
      · rw [← hdescs]
        simp
      · rw [← hdescs, List.getLast?_concat]

/-- C4 witness: a concrete commit frame 5000 ms after Learning began, with
the current embedding appended last. -/
theorem enroll_commit_timing_witness :
    (1000 : ℕ) ≠ 0 ∧ 1000 + 5000 ≤ 6000
    ∧ ([[1], [2]] : List Emb) = [[1]] ++ [[2]] ∧ ([[1], [2]] : List Emb) ≠ []
    ∧ ([[1], [2]] : List Emb).getLast? = some [2] :=
  enroll_commit_timing ⟨1000, [[1]]⟩ 1 6000 [2] (some []) "Bob" "Bob" [[1], [2]] ⟨0, []⟩
    (of_decide_eq_true (by with_unfolding_all rfl))

/-- C5.  If the duplicate-check fetch fails (store unreachable), the
enrollment frame behaves exactly as if the duplicate check had returned
"no match": the resulting state and action coincide with those for any
fetched user list on which the matcher reports "no match", the session
proceeds to Learning (recording the current time as learning start) and the
outcome is the ordinary collecting action — no rejection, no abort. -/
theorem enroll_failopen (st : EnrollState) (fc t : ℕ) (probe : Emb) (name : String)
    (users : List SavedUser)
    (hstart : st.learningStart = 0) (hname : name ≠ "")
    (hu : (findBestMatch probe (userTemplates users) FACE_MATCH_THRESHOLD).label
      = noMatchLabel) :
    enrollFrame st fc t probe none name = enrollFrame st fc t probe (some users) name
    ∧ (enrollFrame st fc t probe none name).2 = .collecting
    ∧ (enrollFrame st fc t probe none name).1.learningStart = t := by
  have hnone : enrollFrame st fc t probe none name = learnStep ⟨t, []⟩ fc t probe name := by
    rw [enrollFrame, if_neg hname, if_pos hstart]
  have hsome : enrollFrame st fc t probe (some users) name
      = learnStep ⟨t, []⟩ fc t probe name := by
    rw [enrollFrame, if_neg hname, if_pos hstart]
    dsimp only
    by_cases hlen : 0 < users.length
    · rw [if_pos hlen, if_neg (by rw [hu]; exact fun hc => hc rfl)]
    · rw [if_neg hlen]
  have hcollect : (learnStep ⟨t, []⟩ fc t probe name).2 = .collecting
      ∧ (learnStep ⟨t, []⟩ fc t probe name).1.learningStart = t := by
    rw [learnStep]
    simp only [Nat.sub_self, Nat.zero_div, MIN_LEARNING_SECONDS]
    rw [if_pos (by norm_num)]
    split <;> exact ⟨rfl, rfl⟩
  exact ⟨hnone.trans hsome.symm, hnone ▸ hcollect.1, hnone ▸ hcollect.2⟩

/-- C5 witness: a concrete failed fetch proceeds to Learning exactly as the
same frame with a fetched list the matcher rejects nobody from. -/
theorem enroll_failopen_witness :
    enrollFrame ⟨0, []⟩ 0 1234 [9] none "Bob"
      = enrollFrame ⟨0, []⟩ 0 1234 [9] (some [⟨"Alice", .multi [[0]]⟩]) "Bob"
    ∧ (enrollFrame ⟨0, []⟩ 0 1234 [9] none "Bob").2 = .collecting
    ∧ (enrollFrame ⟨0, []⟩ 0 1234 [9] none "Bob").1.learningStart = 1234 :=
  enroll_failopen ⟨0, []⟩ 0 1234 [9] "Bob" [⟨"Alice", .multi [[0]]⟩] rfl (by decide)
    (of_decide_eq_true (by with_unfolding_all rfl))

/-! ## C10: GET /users ordering and the matcher tie-break -/

theorem labeledDists_cons (probe : Emb) (u : LabeledTemplate) (ts : List LabeledTemplate) :
    labeledDists probe (u :: ts)
      = u.samples.map (fun s => (u.label, sqDist probe s)) ++ labeledDists probe ts := by
  rw [labeledDists, allSamples, List.map_append, List.map_map]
  rfl

theorem labeledDists_structure (probe : Emb) :
    ∀ (ts : List LabeledTemplate) (l1 l2 : List (String × ℚ)) (p : String × ℚ),
      labeledDists probe ts = l1 ++ p :: l2 →
      (∀ q ∈ l1, p.2 < q.2) →
      ∃ us1 u us2, ts = us1 ++ u :: us2 ∧ u.label = p.1
        ∧ (∃ s ∈ u.samples, sqDist probe s = p.2)
        ∧ ∀ v ∈ us1, ∀ s ∈ v.samples, p.2 < sqDist probe s := by
  intro ts
  induction ts with
  | nil =>
    intro l1 l2 p h _
    simp [labeledDists, allSamples] at h
  | cons u rest ih =>
    intro l1 l2 p h hlt
    rw [labeledDists_cons] at h
    rcases List.append_eq_append_iff.mp h with ⟨a', ha1, ha2⟩ | ⟨c', hc1, hc2⟩
    · obtain ⟨us1', w, us2, hts, hul, hsample, hprev⟩ := ih a' l2 p ha2
        (fun q hq => hlt q (ha1 ▸ List.mem_append_right _ hq))
      refine ⟨u :: us1', w, us2, by simp [hts], hul, hsample, ?_⟩
      intro v hv s hs
      rcases List.mem_cons.mp hv with rfl | hmem
      · exact hlt (v.label, sqDist probe s)
          (ha1 ▸ List.mem_append_left _ (List.mem_map.mpr ⟨s, hs, rfl⟩))
      · exact hprev v hmem s hs
    · cases c' with
      | nil =>
        rw [List.nil_append] at hc2
        obtain ⟨us1', w, us2, hts, hul, hsample, hprev⟩ := ih [] l2 p hc2.symm (by simp)
        refine ⟨u :: us1', w, us2, by simp [hts], hul, hsample, ?_⟩
        intro v hv s hs
        rcases List.mem_cons.mp hv with rfl | hmem
        · rw [List.append_nil] at hc1
          exact hlt (v.label, sqDist probe s) (hc1 ▸ List.mem_map.mpr ⟨s, hs, rfl⟩)
        · exact hprev v hmem s hs
      | cons p' c'' =>
        injection hc2 with hp hl2
        have hpA : p ∈ u.samples.map (fun s => (u.label, sqDist probe s)) := by
          rw [hc1, ← hp]
          exact List.mem_append_right _ (List.mem_cons_self _ _)
        obtain ⟨s, hs, hsp⟩ := List.mem_map.mp hpA
        exact ⟨[], u, rest, rfl, by rw [← hsp], ⟨s, hs, by rw [← hsp]⟩, by simp⟩

theorem sortedRows_sorted (rows : List Row) :
    List.Pairwise (fun a b : Row => a.created_at ≤ b.created_at) (sortedRows rows) := by
  have hs : (rows.mergeSort (fun a b : Row => a.created_at ≤ b.created_at)).Pairwise
      (fun a b : Row => (a.created_at ≤ b.created_at : Bool) = true) :=
    List.sorted_mergeSort
      (fun (a b c : Row) hab hbc => by
        simp only [decide_eq_true_eq] at hab hbc ⊢
        omega)
      (fun (a b : Row) => by
        simp only [Bool.or_eq_true, decide_eq_true_eq]
        omega)
      rows
  rw [sortedRows]
  refine hs.imp ?_
  intro a b hab
  simpa using hab

/-- C10.  `GET /users` returns the identities sorted in ascending order of
creation time (the response is a sorted permutation of the table rows), so
the labeled-template collection handed to the matcher is ordered
oldest-enrolled first; and the matcher's winning pair is the first sample at
the minimum distance: it belongs to some identity at a position such that
every identity listed earlier — i.e. every earlier-created identity — has
all of its samples at a strictly greater distance.  Hence among identities
tied at the minimum distance the earliest listed (earliest-enrolled) wins. -/
theorem getUsers_sorted_tiebreak (rows : List Row) (probe : Emb) (p : String × ℚ)
    (hp : bestOf (labeledDists probe (userTemplates (getUsers rows))) = some p) :
    List.Pairwise (fun a b : Row => a.created_at ≤ b.created_at) (sortedRows rows)
    ∧ List.Perm (sortedRows rows) rows
    ∧ (∀ q ∈ labeledDists probe (userTemplates (getUsers rows)), p.2 ≤ q.2)
    ∧ ∃ us1 u us2, userTemplates (getUsers rows) = us1 ++ u :: us2
        ∧ u.label = p.1
        ∧ (∃ s ∈ u.samples, sqDist probe s = p.2)
        ∧ ∀ v ∈ us1, ∀ s ∈ v.samples, p.2 < sqDist probe s := by
  refine ⟨sortedRows_sorted rows, List.mergeSort_perm rows _, bestOf_le hp, ?_⟩
  obtain ⟨l1, l2, hsplit, hlt⟩ := bestOf_split hp
  exact labeledDists_structure probe _ l1 l2 p hsplit hlt

/-- C10 witness: two identities tied at distance 0; the one created earlier
(listed first by the sort) wins. -/
theorem getUsers_sorted_tiebreak_witness :
    List.Pairwise (fun a b : Row => a.created_at ≤ b.created_at)
      (sortedRows [⟨1, "B", .multi [[0]], 10⟩, ⟨2, "A", .multi [[0]], 5⟩])
    ∧ List.Perm (sortedRows [⟨1, "B", .multi [[0]], 10⟩, ⟨2, "A", .multi [[0]], 5⟩])
        [⟨1, "B", .multi [[0]], 10⟩, ⟨2, "A", .multi [[0]], 5⟩]
    ∧ (∀ q ∈ labeledDists [0]
          (userTemplates (getUsers [⟨1, "B", .multi [[0]], 10⟩, ⟨2, "A", .multi [[0]], 5⟩])),
        (("A", (0 : ℚ)) : String × ℚ).2 ≤ q.2)
    ∧ ∃ us1 u us2,
        userTemplates (getUsers [⟨1, "B", .multi [[0]], 10⟩, ⟨2, "A", .multi [[0]], 5⟩])
          = us1 ++ u :: us2
        ∧ u.label = (("A", (0 : ℚ)) : String × ℚ).1
        ∧ (∃ s ∈ u.samples, sqDist [0] s = (("A", (0 : ℚ)) : String × ℚ).2)
        ∧ ∀ v ∈ us1, ∀ s ∈ v.samples, (("A", (0 : ℚ)) : String × ℚ).2 < sqDist [0] s :=
  getUsers_sorted_tiebreak [⟨1, "B", .multi [[0]], 10⟩, ⟨2, "A", .multi [[0]], 5⟩] [0]
    ("A", 0) (of_decide_eq_true (by with_unfolding_all rfl))

end FaceID
